import Mathlib

/-!
Verification of the resumable ingestion pipeline (`toolv3.py`) and the
standalone CSV merge script (`merge_csv.py`).

The Python sources are shallowly embedded as executable Lean functions.
External effects (HTTP responses, language detection, the rendering driver,
disk-capacity answers) are supplied by explicit environment records; file
writes performed by the pipeline are modelled as an explicit event list that
is applied to a file-system state, so that a crash can be modelled as
executing only a prefix of a run's events.
-/

namespace Toolv3

/-- One fetched ad record, as consumed by `process_single_term`
(`toolv3.py` lines 299-342).  The Python code reads these fields out of the
loosely-typed JSON dict returned by the ads_archive API; optional fields are
`Option String` (the nested `spend` / `impressions` dicts are flattened to
their `lower_bound` / `upper_bound` entries).  The `id` field is assumed
present, matching the claims' data model. -/
structure Ad where
  id : String
  pageId : Option String
  pageName : Option String
  adSnapshotUrl : Option String
  adCreativeBody : Option String
  adCreativeLinkTitle : Option String
  adCreativeLinkDescription : Option String
  adCreativeLinkCaption : Option String
  spendLower : Option String
  spendUpper : Option String
  impressionsLower : Option String
  impressionsUpper : Option String
  currency : Option String
deriving DecidableEq

/-- One output row, the dict built at `toolv3.py` lines 324-340. -/
structure Row where
  term : String
  adId : String
  pageId : Option String
  pageName : String
  adText : String
  linkTitle : String
  linkDescription : String
  linkCaption : String
  snapshotUrl : Option String
  localScreenshotPath : Option String
  spendLowerBound : Option String
  spendUpperBound : Option String
  impressionsLowerBound : Option String
  impressionsUpperBound : Option String
  currency : Option String
deriving DecidableEq

/-- The checkpoint state, the module-level `state` dict of `toolv3.py`
lines 106-109: `processed_terms` and `processed_ad_ids`. -/
structure CrawlState where
  processedTerms : List String
  processedAdIds : List String
deriving DecidableEq

/-- `ad.get(k) or ""`: a missing value, and also an empty string, become `""`. -/
def orEmpty (o : Option String) : String := o.getD ""

/-- Python `sub in s` (substring containment), by structural recursion over
the character list (so that concrete instances reduce in the kernel). -/
def hasSub : List Char → List Char → Bool
  | [], sep => sep.isEmpty
  | c :: rest, sep => sep.isPrefixOf (c :: rest) || hasSub rest sep

/-- Python `sub in s` on strings. -/
def containsSub (s sub : String) : Bool := hasSub s.data sub.data

/-- Split a character list at every occurrence of a single character
(Python `str.split(sep)` for a one-character separator). -/
def splitChar (sep : Char) : List Char → List (List Char)
  | [] => [[]]
  | c :: rest =>
    if c = sep then [] :: splitChar sep rest
    else
      match splitChar sep rest with
      | [] => [[c]]
      | h :: t => (c :: h) :: t

/-- The remainder of the list after the first occurrence of `sep`, if any. -/
def dropThroughSub (sep : List Char) : List Char → Option (List Char)
  | [] => if sep.isEmpty then some [] else none
  | c :: rest =>
    if sep.isPrefixOf (c :: rest) then some ((c :: rest).drop sep.length)
    else dropThroughSub sep rest

/-- Python `s.endswith(t)` / `str.endswith`. -/
def strEndsWith (s t : String) : Bool := t.data.isSuffixOf s.data

/-- `pathlib.Path.with_suffix`: replace the final extension of the last
path component (`ext` is passed including its dot). -/
def withSuffix (p ext : String) : String :=
  let parts := splitChar '/' p.data
  let fname := parts.getLastD []
  let dir := parts.dropLast
  let fparts := splitChar '.' fname
  let stem := if fparts.length ≤ 1 then fname else List.intercalate ['.'] fparts.dropLast
  String.mk (List.intercalate ['/'] (dir ++ [stem ++ ext.data]))

/-- `pathlib.Path(p).suffix`: the final extension including the dot, or `""`
if the last component has no dot. -/
def pathSuffix (p : String) : String :=
  let fname := (splitChar '/' p.data).getLastD []
  let fparts := splitChar '.' fname
  if fparts.length ≤ 1 then "" else String.mk ('.' :: fparts.getLastD [])

/-- `urllib.parse.urlparse(url).path`: drop the fragment and query, and for a
`scheme://host/...` URL return the part from the first slash after the host
(empty if there is none). -/
def urlPath (url : String) : String :=
  let noFrag := (splitChar '#' url.data).headD []
  let noQuery := (splitChar '?' noFrag).headD []
  match dropThroughSub [':', '/', '/'] noQuery with
  | some hostPath =>
    match splitChar '/' hostPath with
    | _ :: segs => String.mk (List.intercalate ['/'] ([] :: segs))
    | [] => ""
  | none => String.mk noQuery

/-- Python `str.lower()` (ASCII case folding suffices for the inputs used). -/
def strLower (s : String) : String := String.mk (s.data.map Char.toLower)

/-- Python `str.strip()` without arguments: remove leading and trailing
whitespace. -/
def pyStrip (s : String) : String :=
  let ws := [' ', '\t', '\n', '\r', '\x0b', '\x0c']
  String.mk (((s.data.dropWhile (ws.contains ·)).reverse.dropWhile (ws.contains ·)).reverse)

/-- `toolv3.py` line 288: keep alphanumerics, `-` and `_`, replace every other
character by `_`, then strip `_` from both ends.  (Python's `str.isalnum` is
Unicode-aware; `Char.isAlphanum` is the ASCII restriction, which agrees on
every input used in the theorems below.) -/
def termSafe (term : String) : String :=
  let repl := term.toList.map (fun c => if c.isAlphanum || c = '-' || c = '_' then c else '_')
  let stripped := ((repl.dropWhile (· = '_')).reverse.dropWhile (· = '_')).reverse
  String.mk stripped

/-- Fixed paths from the `Config` section of `toolv3.py` (lines 58-63). -/
def screenshotsDir : String := "data/ad_screenshots"

/-- `OUTPUT_DIR / f"facebook_ads_{term_safe}.csv"` (`toolv3.py` line 289). -/
def outCsvName (ts : String) : String := "data/outputs/facebook_ads_" ++ ts ++ ".csv"

/-- The static search-term list (`toolv3.py` lines 54-56). -/
def searchTermsList : List String :=
  ["giảm giá", "khuyến mãi", "ưu đãi", "siêu sale", "flash sale", "mua ngay",
   "miễn phí vận chuyển"]

/-! ## Snapshot capture (`_download_image`, `_screenshot_page`, `capture_ad_snapshot`) -/

/-- A filesystem side effect performed by the capture functions: creating the
destination directory, or writing an image/screenshot file. -/
inductive FsEffect where
  | mkdir (dir : String)
  | write (path : String)
deriving DecidableEq

/-- Outcome of `session.head(url)` at `toolv3.py` line 220: an exception, or a
response carrying a `Content-Type` header value. -/
inductive HeadRes where
  | exn
  | ok (ct : String)

/-- Environment for the capture functions: the disk-capacity answer of
`has_enough_disk`, the `Content-Type` of a successful `session.get`
(`none` models any exception, including `raise_for_status`), the result of
`session.head`, and whether `_screenshot_page` succeeds for a URL. -/
structure CapEnv where
  hasDisk : Bool
  getCt : String → Option String
  headRes : String → HeadRes
  ssOk : String → Bool

/-- `ct.split("/")[-1].split(";")[0] if "/" in ct else "jpg"`
(`toolv3.py` line 181). -/
def ctExt (ct : String) : String :=
  if containsSub ct "/" then
    String.mk ((splitChar ';' ((splitChar '/' ct.data).getLastD [])).headD [])
  else "jpg"

/-- `ct.split("/")[-1].split(";")[0]` (`toolv3.py` line 223; unlike line 181
there is no `"jpg"` fallback here). -/
def ctExtHead (ct : String) : String :=
  String.mk ((splitChar ';' ((splitChar '/' ct.data).getLastD [])).headD [])

/-- `_download_image` (`toolv3.py` lines 174-189): GET the URL; any exception
or a non-image `Content-Type` yields `none`; otherwise the image is written to
`dest_path` with the content-type-derived extension and that path is returned.
The model assumes the file write itself succeeds (a write failure is also
caught and yields `none` in the source). -/
def downloadImage (env : CapEnv) (url : String) (destPath : String) :
    Option String × List FsEffect :=
  match env.getCt url with
  | none => (none, [])
  | some ct =>
    if containsSub ct "image" then
      let path := withSuffix destPath ("." ++ ctExt ct)
      (some path, [.write path])
    else (none, [])

/-- Extensions recognized at `toolv3.py` line 214. -/
def imageExts : List String := [".png", ".jpg", ".jpeg", ".gif", ".webp"]

/-- `capture_ad_snapshot` (`toolv3.py` lines 205-232), returning the captured
path (if any) together with the filesystem effects performed, in order:
1. absent URL or insufficient disk: return `none` immediately, no effects;
2. `mkdir` the destination folder; if the URL path ends with a known image
   extension, try a direct download;
3. otherwise/failing that, HEAD-probe the content type (exceptions ignored)
   and, if it names an image, try the download;
4. finally fall back to a rendered full-page screenshot at `<base>.png`. -/
def captureAdSnapshot (env : CapEnv) (url? : Option String) (destFolder adId : String) :
    Option String × List FsEffect :=
  match url? with
  | none => (none, [])
  | some url =>
    if env.hasDisk = false then (none, [])
    else
      let e0 : List FsEffect := [.mkdir destFolder]
      let base := destFolder ++ "/" ++ adId
      let tryExt : Option String × List FsEffect :=
        if imageExts.any (fun e => strEndsWith (strLower (urlPath url)) e) then
          downloadImage env url (withSuffix base (pathSuffix (urlPath url)))
        else (none, [])
      match tryExt with
      | (some img, effs) => (some img, e0 ++ effs)
      | (none, effs1) =>
        let tryHead : Option String × List FsEffect :=
          match env.headRes url with
          | .exn => (none, [])
          | .ok ct =>
            if containsSub ct "image" then
              downloadImage env url (withSuffix base ("." ++ ctExtHead ct))
            else (none, [])
        match tryHead with
        | (some img, effs2) => (some img, e0 ++ effs1 ++ effs2)
        | (none, effs2) =>
          let p := withSuffix base ".png"
          if env.ssOk url then (some p, e0 ++ effs1 ++ effs2 ++ [.write p])
          else (none, e0 ++ effs1 ++ effs2)

/-! ## Checkpoint persistence (`load_state` / `save_state`)

`save_state` (`toolv3.py` lines 122-127) is `STATE_FILE.write_text(json.dumps(state))`
inside `try/except`.  `Path.write_text` opens the file in mode `"w"` — which
truncates it — and then writes the serialized bytes, so the persisted artifact
after a save attempt is: the new serialization (success), the old content
(failure before the file was opened), or a strict prefix of the new
serialization (failure mid-write).  A strict prefix of a `json.dumps` object is
never valid JSON, so the mid-write outcome is modelled as `corrupt`.
`load_state` (lines 111-119) parses the file inside `try/except`: a missing or
unparsable file leaves the module-level default (empty) state in place. -/

/-- The persisted representation of the checkpoint file. -/
inductive StateFileV where
  | missing
  | valid (st : CrawlState)
  | corrupt
deriving DecidableEq

/-- How far a `write_text` call got before failing, if it failed. -/
inductive SaveOutcome where
  | ok
  | openFail
  | writePartial
deriving DecidableEq

/-- `save_state`: the exception paths are caught and logged (the function
never raises), and the file is left as dictated by how far the write got. -/
def saveStateFile (old : StateFileV) (st : CrawlState) : SaveOutcome → StateFileV
  | .ok => .valid st
  | .openFail => old
  | .writePartial => .corrupt

/-- `load_state`: a readable checkpoint replaces the in-memory state; a
missing or corrupt one is logged and the default empty state is kept. -/
def loadStateFile : StateFileV → CrawlState
  | .valid st => st
  | _ => ⟨[], []⟩

/-! ## Resilient fetch client (`make_session`, `fetch_ads_for_term`) -/

/-- One HTTP response of the ads_archive API: status code, the `data` array,
and whether `paging.next` is present. -/
structure HttpResp where
  status : Nat
  body : List Ad
  hasNext : Bool

/-- `status_forcelist` of the `urllib3.util.retry.Retry` configured in
`make_session` (`toolv3.py` line 94): the only statuses retried. -/
def statusForcelist : List Nat := [429, 500, 502, 503, 504]

/-- The adapter-level retry loop of `make_session`'s `Retry(total=6, ...)`:
attempt `i` is retried only while its status is in `statusForcelist`; when the
budget is exhausted a `RetryError` is raised (`none`).  Any other status —
transient or not — is returned as-is (a 4xx/5xx then surfaces through
`raise_for_status`).  The exponential `backoff_factor=1` sleep affects timing
only and is not modelled. -/
def retryGet (att : Nat → HttpResp) : Nat → Nat → Option HttpResp
  | _, 0 => none
  | i, fuel + 1 =>
    if (att i).status ∈ statusForcelist then retryGet att (i + 1) fuel
    else some (att i)

/-- `session.get` through the retry adapter: one initial attempt plus up to
`total=6` retries. -/
def sessionGet (att : Nat → HttpResp) : Option HttpResp := retryGet att 0 7

/-- Environment of one pipeline run: the remote source (`term`, page index,
attempt index → response), the language detector (`none` models a
`LangDetectException`), the capture environment, the configured
`BATCH_WRITE_EVERY_N_ROWS`, and the `MAX_RUNTIME_SECONDS` budget check
(indexed by the loop's progress counter, since wall-clock time is external). -/
structure Env where
  pages : String → Nat → Nat → HttpResp
  detect : String → Option String
  cap : CapEnv
  batchN : Nat
  runtimeExceeded : Nat → Bool

/-- The pagination loop of `fetch_ads_for_term` (`toolv3.py` lines 252-268):
follow `paging.next` up to `max_pages` pages, accumulating `data`; any
exception on a page — a `RetryError` after the budget, or `raise_for_status`
on a non-retried error status — is caught, logged, and stops the loop,
returning the records accumulated so far.  The function never raises. -/
def fetchPages (env : Env) (term : String) : Nat → Nat → List Ad → List Ad
  | 0, _, acc => acc
  | n + 1, p, acc =>
    match sessionGet (env.pages term p) with
    | none => acc
    | some r =>
      if 400 ≤ r.status then acc
      else if r.hasNext then fetchPages env term n (p + 1) (acc ++ r.body)
      else acc ++ r.body

/-- `fetch_ads_for_term(term, limit=50, max_pages)` for the token-present case
(the `ACCESS_TOKEN` guard is modelled in `mainFull` below, which never calls
this without a token). -/
def fetchAdsForTerm (env : Env) (term : String) (maxPages : Nat) : List Ad :=
  fetchPages env term maxPages 0 []

/-! ## The orchestrator (`process_single_term`, `main`)

The per-record loop and the per-term loop are embedded as recursive functions
that, besides the in-memory `CrawlState`, produce the ordered list of external
events a run performs: source queries (`fetch`), CSV appends to the per-term
and aggregate sinks (`append`), and checkpoint saves (`save`).  Applying a
run's full event list to a file-system state models a run that terminates
gracefully (normal completion or cooperative shutdown); applying a proper
prefix models a crash at that point.

The cooperative `shutting_down` flag is set asynchronously by the signal
handler and polled at the top of the term loop and of the record loop.  Poll
results are modelled by a counter `t` of polls performed so far together with
an optional signal index `sigAt`: poll number `t` observes the flag as set
exactly when `sigAt = some k` with `k ≤ t`.  (The handler's own `save_state`
call only persists the current in-memory state and is not modelled as a
separate event.) -/

/-- An external event performed by the pipeline. -/
inductive Sink where
  | term (ts : String)
  | aggregate
deriving DecidableEq

/-- An external event performed by the pipeline. -/
inductive Ev where
  | fetch (term : String)
  | append (sink : Sink) (rows : List Row)
  | save (st : CrawlState)
deriving DecidableEq

/-- The `shutting_down` poll: poll `t` sees the flag set iff the signal index
`k` satisfies `k ≤ t`. -/
def isShut (sigAt : Option Nat) (t : Nat) : Bool :=
  match sigAt with
  | none => false
  | some k => k ≤ t

/-- The per-record body of `process_single_term` (`toolv3.py` lines 302-341)
up to the point where the row has been built: `none` when the record is
skipped by one of the `continue`s — already-seen id, empty ad text, language
detection failure, or non-`vi` language (the latter three only when
`only_vietnamese`) — and `some row` otherwise.  The capture call and the row
construction follow lines 320-340. -/
def emitOne (env : Env) (onlyVi : Bool) (term ts : String) (seen : List String)
    (ad : Ad) : Option Row :=
  if ad.id ∈ seen then none
  else
    let pageName := orEmpty ad.pageName
    let creativeBody := orEmpty ad.adCreativeBody
    let linkTitle := orEmpty ad.adCreativeLinkTitle
    let linkDesc := orEmpty ad.adCreativeLinkDescription
    let linkCaption := orEmpty ad.adCreativeLinkCaption
    let adText := if creativeBody ≠ "" then creativeBody
      else pyStrip (String.mk (List.intercalate [' ']
        [linkTitle.data, linkDesc.data, linkCaption.data, pageName.data]))
    let pass := if onlyVi then
        if adText = "" then false
        else match env.detect adText with
          | none => false
          | some lang => lang = "vi"
      else true
    if pass then
      let fname := ts ++ "_" ++ ad.id
      let shot := (captureAdSnapshot env.cap ad.adSnapshotUrl screenshotsDir fname).1
      some { term := term, adId := ad.id, pageId := ad.pageId, pageName := pageName,
             adText := creativeBody, linkTitle := linkTitle,
             linkDescription := linkDesc, linkCaption := linkCaption,
             snapshotUrl := ad.adSnapshotUrl, localScreenshotPath := shot,
             spendLowerBound := ad.spendLower, spendUpperBound := ad.spendUpper,
             impressionsLowerBound := ad.impressionsLower,
             impressionsUpperBound := ad.impressionsUpper, currency := ad.currency }
    else none

/-- Cursor of the record loop: the in-memory row buffer, the in-memory
checkpoint state, the poll counter, and the events performed so far. -/
structure LoopSt where
  rows : List Row
  st : CrawlState
  t : Nat
  evs : List Ev
deriving DecidableEq

/-- The record loop of `process_single_term` (`toolv3.py` lines 299-351):
poll the shutdown flag (break if set), skip or emit the record via `emitOne`,
record the emitted id in `processed_ad_ids`, and on reaching
`BATCH_WRITE_EVERY_N_ROWS` buffered rows append the batch to the per-term CSV
and to `merged.csv`, clear the buffer, and save the state. -/
def recordLoop (env : Env) (sigAt : Option Nat) (onlyVi : Bool) (term ts : String) :
    List Ad → LoopSt → LoopSt
  | [], s => s
  | ad :: rest, s =>
    if isShut sigAt s.t then ⟨s.rows, s.st, s.t + 1, s.evs⟩
    else
      let s1 : LoopSt := ⟨s.rows, s.st, s.t + 1, s.evs⟩
      match emitOne env onlyVi term ts s1.st.processedAdIds ad with
      | none => recordLoop env sigAt onlyVi term ts rest s1
      | some row =>
        let rows2 := s1.rows ++ [row]
        let st2 : CrawlState := ⟨s1.st.processedTerms, s1.st.processedAdIds ++ [ad.id]⟩
        if env.batchN ≤ rows2.length then
          recordLoop env sigAt onlyVi term ts rest
            ⟨[], st2, s1.t,
             s1.evs ++ [.append (.term ts) rows2, .append .aggregate rows2, .save st2]⟩
        else
          recordLoop env sigAt onlyVi term ts rest ⟨rows2, st2, s1.t, s1.evs⟩

/-- `process_single_term` (`toolv3.py` lines 287-362): fetch the term's ads
(`max_pages=5`); with no ads, mark the term processed and save; otherwise run
the record loop, flush any final partial batch (with a save), then —
unconditionally, even when the loop was interrupted by the shutdown flag —
append the term to `processed_terms` and save. -/
def processSingleTerm (env : Env) (sigAt : Option Nat) (onlyVi : Bool) (term : String)
    (st : CrawlState) (t : Nat) : LoopSt :=
  let ts := termSafe term
  let ads := fetchAdsForTerm env term 5
  if ads = [] then
    let st1 : CrawlState := ⟨st.processedTerms ++ [term], st.processedAdIds⟩
    ⟨[], st1, t, [.fetch term, .save st1]⟩
  else
    let r := recordLoop env sigAt onlyVi term ts ads ⟨[], st, t, [.fetch term]⟩
    let evs1 := if r.rows = [] then r.evs
      else r.evs ++ [.append (.term ts) r.rows, .append .aggregate r.rows, .save r.st]
    let st1 : CrawlState := ⟨r.st.processedTerms ++ [term], r.st.processedAdIds⟩
    ⟨[], st1, r.t, evs1 ++ [.save st1]⟩

/-- The term loop of `main` (`toolv3.py` lines 391-417): poll the shutdown
flag (break), skip terms already in `processed_terms`, break once the runtime
budget is exceeded, and otherwise process the term (with `only_vietnamese=True`)
and continue with the updated state.  Per-term exceptions are caught in the
source and, as every modelled operation is total, do not arise here; the
periodic webdriver restart and the throttle sleeps perform no modelled
events. -/
def mainLoop (env : Env) (sigAt : Option Nat) :
    List String → CrawlState → Nat → List Ev × CrawlState × Nat
  | [], st, t => ([], st, t)
  | term :: rest, st, t =>
    if isShut sigAt t then ([], st, t + 1)
    else
      let t1 := t + 1
      if term ∈ st.processedTerms then mainLoop env sigAt rest st t1
      else if env.runtimeExceeded t1 then ([], st, t1)
      else
        let r := processSingleTerm env sigAt true term st t1
        let m := mainLoop env sigAt rest r.st r.t
        (r.evs ++ m.1, m.2.1, m.2.2)

/-- All events of one run of `main`'s loop started from in-memory state `st0`,
including the unconditional `save_state` in `main`'s `finally` block
(`toolv3.py` line 422). -/
def mainEvents (env : Env) (sigAt : Option Nat) (terms : List String)
    (st0 : CrawlState) : List Ev :=
  let r := mainLoop env sigAt terms st0 0
  r.1 ++ [.save r.2.1]

/-- The durable state across runs: the contents of `merged.csv`, the per-term
CSV files, and the checkpoint file (`none` when absent; headers are a
presentation detail of `append_to_csv` and are not modelled). -/
structure FileSys where
  merged : List Row
  perTerm : List (String × List Row)
  stateFile : Option CrawlState
deriving DecidableEq

/-- Append rows to a named per-term CSV (creating it on first write,
mirroring `append_to_csv`'s header-on-create behaviour). -/
def appendRowsFile (files : List (String × List Row)) (f : String) (rows : List Row) :
    List (String × List Row) :=
  if files.any (fun g => g.1 = f) then
    files.map (fun g => if g.1 = f then (g.1, g.2 ++ rows) else g)
  else files ++ [(f, rows)]

/-- Apply one event to the durable state. -/
def applyEv (fs : FileSys) : Ev → FileSys
  | .fetch _ => fs
  | .append .aggregate rows => ⟨fs.merged ++ rows, fs.perTerm, fs.stateFile⟩
  | .append (.term ts) rows => ⟨fs.merged, appendRowsFile fs.perTerm ts rows, fs.stateFile⟩
  | .save st => ⟨fs.merged, fs.perTerm, some st⟩

/-- Apply a list of events in order. -/
def applyEvs (fs : FileSys) : List Ev → FileSys
  | [] => fs
  | e :: es => applyEvs (applyEv fs e) es

/-- `load_state` (`toolv3.py` lines 111-119): a present, readable checkpoint
replaces the in-memory state; otherwise the empty default stands. -/
def loadState (fs : FileSys) : CrawlState := fs.stateFile.getD ⟨[], []⟩

/-- One complete (gracefully terminating) run of `main`'s loop against the
durable state: load the checkpoint, run the loop, apply every event. -/
def mainRun (env : Env) (sigAt : Option Nat) (terms : List String) (fs : FileSys) :
    FileSys × CrawlState :=
  let st0 := loadState fs
  let r := mainLoop env sigAt terms st0 0
  (applyEvs fs (r.1 ++ [.save r.2.1]), r.2.1)

/-- A run that crashes after performing only the first `k` events. -/
def crashRun (env : Env) (sigAt : Option Nat) (terms : List String) (fs : FileSys)
    (k : Nat) : FileSys :=
  applyEvs fs ((mainEvents env sigAt terms (loadState fs)).take k)

/-- `main` including its prologue (`toolv3.py` lines 364-423): `load_state`,
`cleanup_old_images`, then the `ACCESS_TOKEN` guard — a missing or empty
token logs an error and returns from `main`, which at the top level
(`if __name__ == "__main__": main()`) ends the process with exit status 0;
no `sys.exit` call exists anywhere in the script.  With a token present the
driver is initialized and the term loop runs; the modelled (exception-free)
paths all fall through `main`'s `finally` and likewise exit 0.  The retention
sweep touches only screenshot files, which are outside `FileSys`. -/
structure MainRes where
  exitCode : Nat
  stateLoaded : Bool
  cleanupRan : Bool
  driverInited : Bool
  evs : List Ev
deriving DecidableEq

/-- Python truthiness of `ACCESS_TOKEN`: present and nonempty. -/
def tokenPresent (tok : Option String) : Bool := tok.getD "" != ""

/-- One full process execution of `toolv3.py` (see `MainRes`). -/
def mainFull (tok : Option String) (env : Env) (sigAt : Option Nat)
    (terms : List String) (fs : FileSys) : MainRes × FileSys :=
  if tokenPresent tok = false then
    (⟨0, true, true, false, []⟩, fs)
  else
    let evs := mainEvents env sigAt terms (loadState fs)
    (⟨0, true, true, true, evs⟩, applyEvs fs evs)

end Toolv3

namespace MergeCsv

/-!
Embedding of `merge_csv.py`: a directory is a listing of `(filename, rows)`
pairs (each `rows` the data rows of a CSV file, a row kept opaque as a
`String`); `glob('*.csv')` keeps the files whose name ends in `.csv` in
listing order; the script concatenates their rows (`pd.concat` of the
`read_csv` frames in glob order) and writes the result to `merged.csv`
(`to_csv` overwrites).  With no CSV file present the script exits with
status 1, modelled as `none`.
-/

/-- `glob.glob('*.csv')` over the directory listing. -/
def globCsv (d : List (String × List String)) : List (String × List String) :=
  d.filter (fun f => Toolv3.strEndsWith f.1 ".csv")

/-- `to_csv('merged.csv')`: overwrite the file if present, else create it. -/
def writeFile (d : List (String × List String)) (name : String) (rows : List String) :
    List (String × List String) :=
  if d.any (fun f => f.1 = name) then
    d.map (fun f => if f.1 = name then (name, rows) else f)
  else d ++ [(name, rows)]

/-- `read_csv` of a file in the directory (empty if absent). -/
def readRows (d : List (String × List String)) (name : String) : List String :=
  ((d.find? (fun f => f.1 = name)).map (fun f => f.2)).getD []

/-- One invocation of `merge_csv.py` on the working directory `d`. -/
def mergeCsv (d : List (String × List String)) : Option (List (String × List String)) :=
  let csvs := globCsv d
  if csvs = [] then none
  else some (writeFile d "merged.csv" ((csvs.map (fun f => f.2)).flatten))

end MergeCsv

namespace Toolv3

/-! ## Derived notions used by the theorems -/

/-- The rows an event contributes to `merged.csv`. -/
def mergedDelta : Ev → List Row
  | .append .aggregate rows => rows
  | _ => []

/-- The rows a list of events appends to `merged.csv`, in order. -/
def mergedOf : List Ev → List Row
  | [] => []
  | e :: es => mergedDelta e ++ mergedOf es

/-- The record ids of a list of output rows. -/
def rowIds (rs : List Row) : List String := rs.map Row.adId

/-- The durable state is consistent when the aggregate output holds no
duplicate record id and every id it holds is recorded in the checkpoint that
a resumed run would load. -/
def Consistent (fs : FileSys) : Prop :=
  (rowIds fs.merged).Nodup ∧ ∀ i ∈ rowIds fs.merged, i ∈ (loadState fs).processedAdIds

/-- The terms queried against the remote source by a list of events. -/
def fetchedTerms : List Ev → List String
  | [] => []
  | .fetch w :: es => w :: fetchedTerms es
  | _ :: es => fetchedTerms es

/-- The record-loop prefix actually processed under a signal first observed at
poll `k`, starting from poll counter `t`: everything for no signal, the first
`k - t` records otherwise. -/
def sigTake (sigAt : Option Nat) (t : Nat) (l : List Ad) : List Ad :=
  match sigAt with
  | none => l
  | some k => l.take (k - t)

/-- Reference form of the record loop's filtering and dedup, divorced from
buffering and batching: thread the seen-id list through `emitOne`, collecting
the emitted rows and the final seen-id list. -/
def emitList (env : Env) (onlyVi : Bool) (term ts : String) :
    List String → List Ad → List Row × List String
  | seen, [] => ([], seen)
  | seen, ad :: rest =>
    match emitOne env onlyVi term ts seen ad with
    | none => emitList env onlyVi term ts seen rest
    | some row =>
      let p := emitList env onlyVi term ts (seen ++ [ad.id]) rest
      (row :: p.1, p.2)

/-- The signal-independent observables of a record-loop cursor (everything
except the poll counter). -/
def outOf (s : LoopSt) : List Row × CrawlState × List Ev := (s.rows, s.st, s.evs)

/-- The terms `main`'s loop schedules for fetching given the completed set:
every listed term not already processed, each becoming processed as it is
passed (so a duplicate later in the list is skipped). -/
def termsPlan (done : List String) : List String → List String
  | [] => []
  | x :: r => if x ∈ done then termsPlan done r else x :: termsPlan (done ++ [x]) r

/-! ## Concrete fixtures used by counterexamples and witnesses -/

/-- A record with Vietnamese body text and no snapshot URL. -/
def adOne : Ad :=
  { id := "a1", pageId := none, pageName := some "P",
    adSnapshotUrl := none, adCreativeBody := some "xin chao",
    adCreativeLinkTitle := none, adCreativeLinkDescription := none,
    adCreativeLinkCaption := none, spendLower := none, spendUpper := none,
    impressionsLower := none, impressionsUpper := none, currency := none }

/-- A second record, differing only in its id. -/
def adTwo : Ad := { adOne with id := "a2" }

/-- A capture environment that makes every capture step fail. -/
def capStub : CapEnv :=
  { hasDisk := true, getCt := fun _ => none,
    headRes := fun _ => .exn, ssOk := fun _ => false }

/-- A capture environment reporting insufficient free disk. -/
def capNoDisk : CapEnv := { capStub with hasDisk := false }

/-- A capture environment whose GET and HEAD both report `text/html` and whose
rendered capture succeeds. -/
def capProbe : CapEnv :=
  { hasDisk := true, getCt := fun _ => some "text/html",
    headRes := fun _ => .ok "text/html", ssOk := fun _ => true }

/-- Environment: every term yields one page holding `adOne`; language
detection accepts; batches flush after a single row; no runtime cutoff. -/
def envOne : Env :=
  { pages := fun _ _ _ => { status := 200, body := [adOne], hasNext := false },
    detect := fun _ => some "vi", cap := capStub, batchN := 1,
    runtimeExceeded := fun _ => false }

/-- Like `envOne` but every term yields two records and the batch threshold is
the source default of 50. -/
def envTwo : Env :=
  { envOne with
    pages := fun _ _ _ => { status := 200, body := [adOne, adTwo], hasNext := false },
    batchN := 50 }

/-- Like `envOne` but every page request for term `"A"` answers 401. -/
def envAuth : Env :=
  { envOne with pages := fun term _ _ =>
      if term = "A" then { status := 401, body := [], hasNext := false }
      else { status := 200, body := [adOne], hasNext := false } }

/-- An attempt sequence whose every response is a 401. -/
def attOne : Nat → HttpResp := fun _ => { status := 401, body := [], hasNext := false }

/-- The initial durable state: no output, no checkpoint. -/
def fsEmpty : FileSys := ⟨[], [], none⟩

/-- A durable state whose checkpoint marks `"done"` as completed. -/
def fsDone : FileSys := ⟨[], [], some ⟨["done"], []⟩⟩

end Toolv3

namespace MergeCsv

/-- A working directory holding a single data CSV. -/
def dirC : List (String × List String) := [("a.csv", ["r1", "r2"])]

/-- `dirC` after one run of the merge script. -/
def dirC1 : List (String × List String) :=
  [("a.csv", ["r1", "r2"]), ("merged.csv", ["r1", "r2"])]

/-- `dirC` after two runs of the merge script. -/
def dirC2 : List (String × List String) :=
  [("a.csv", ["r1", "r2"]), ("merged.csv", ["r1", "r2", "r1", "r2"])]

end MergeCsv

namespace Toolv3

/-! ## Infrastructure lemmas about events and the record loop -/

/-- `mergedOf` distributes over event-list concatenation. -/
theorem mergedOf_append : ∀ a b : List Ev, mergedOf (a ++ b) = mergedOf a ++ mergedOf b := by
  intro a b
  induction a with
  | nil => rfl
  | cons e es ih => simp [mergedOf, ih]

/-- One event extends `merged.csv` by exactly its `mergedDelta`. -/
theorem merged_applyEv (fs : FileSys) (e : Ev) :
    (applyEv fs e).merged = fs.merged ++ mergedDelta e := by
  cases e with
  | fetch _ => simp [applyEv, mergedDelta]
  | append sink rows => cases sink <;> simp [applyEv, mergedDelta]
  | save _ => simp [applyEv, mergedDelta]

/-- Applying events extends `merged.csv` by exactly `mergedOf`. -/
theorem merged_applyEvs : ∀ (evs : List Ev) (fs : FileSys),
    (applyEvs fs evs).merged = fs.merged ++ mergedOf evs := by
  intro evs
  induction evs with
  | nil => intro fs; simp [applyEvs, mergedOf]
  | cons e es ih =>
    intro fs
    simp [applyEvs, ih, merged_applyEv, mergedOf, List.append_assoc]

/-- `applyEvs` processes a concatenation left to right. -/
theorem applyEvs_append : ∀ (a b : List Ev) (fs : FileSys),
    applyEvs fs (a ++ b) = applyEvs (applyEvs fs a) b := by
  intro a
  induction a with
  | nil => intro b fs; rfl
  | cons e es ih => intro b fs; simp [applyEvs, ih]

/-- After a trailing save of `st`, the loaded checkpoint is `st`. -/
theorem loadState_after_save (fs : FileSys) (evs : List Ev) (st : CrawlState) :
    loadState (applyEvs fs (evs ++ [.save st])) = st := by
  rw [applyEvs_append]
  rfl

/-- `fetchedTerms` distributes over event-list concatenation. -/
theorem fetchedTerms_append : ∀ a b : List Ev,
    fetchedTerms (a ++ b) = fetchedTerms a ++ fetchedTerms b := by
  intro a b
  induction a with
  | nil => rfl
  | cons e es ih => cases e <;> simp [fetchedTerms, ih]

/-- A record that `emitOne` emits was not in the seen set, and its row carries
the record's id. -/
theorem emitOne_some_id (env : Env) (b : Bool) (term ts : String) (seen : List String)
    (ad : Ad) (row : Row) (h : emitOne env b term ts seen ad = some row) :
    ad.id ∉ seen ∧ row.adId = ad.id := by
  unfold emitOne at h
  by_cases hmem : ad.id ∈ seen
  · rw [if_pos hmem] at h
    exact absurd h (by simp)
  · rw [if_neg hmem] at h
    refine ⟨hmem, ?_⟩
    dsimp only at h
    repeat' split at h
    all_goals
      first
        | (injection h with h; subst h; rfl)
        | exact absurd h (by simp)

/-- The reference loop emits no id twice: starting from a base list `B` of
already-emitted ids that is duplicate-free and covered by the seen set, after
the loop the extended id list is still duplicate-free, every id in it is in
the final seen set, and the seen set only grows. -/
theorem emitList_nodup (env : Env) (b : Bool) (term ts : String) :
    ∀ (ads : List Ad) (seen B : List String),
      B.Nodup → (∀ x ∈ B, x ∈ seen) →
      (B ++ rowIds (emitList env b term ts seen ads).1).Nodup
      ∧ (∀ x ∈ B ++ rowIds (emitList env b term ts seen ads).1,
          x ∈ (emitList env b term ts seen ads).2)
      ∧ (∀ x ∈ seen, x ∈ (emitList env b term ts seen ads).2) := by
  intro ads
  induction ads with
  | nil =>
    intro seen B hB hBs
    simp only [emitList, rowIds, List.map_nil, List.append_nil]
    exact ⟨hB, hBs, fun x hx => hx⟩
  | cons ad rest ih =>
    intro seen B hB hBs
    cases hemit : emitOne env b term ts seen ad with
    | none =>
      simp only [emitList, hemit]
      exact ih seen B hB hBs
    | some row =>
      obtain ⟨hnot, hid⟩ := emitOne_some_id env b term ts seen ad row hemit
      have hBn : (B ++ [row.adId]).Nodup := by
        rw [hid, List.nodup_append]
        refine ⟨hB, List.nodup_singleton _, ?_⟩
        intro x hx hx1
        rw [List.mem_singleton] at hx1
        subst hx1
        exact hnot (hBs _ hx)
      have hBs' : ∀ x ∈ B ++ [row.adId], x ∈ seen ++ [ad.id] := by
        intro x hx
        rcases List.mem_append.mp hx with hx | hx
        · exact List.mem_append_left _ (hBs x hx)
        · rw [List.mem_singleton] at hx
          subst hx
          rw [hid]
          exact List.mem_append_right _ (List.mem_singleton_self _)
      have H := ih (seen ++ [ad.id]) (B ++ [row.adId]) hBn hBs'
      simp only [emitList, hemit, rowIds, List.map_cons]
      rw [show B ++ row.adId :: List.map Row.adId (emitList env b term ts (seen ++ [ad.id]) rest).1
            = (B ++ [row.adId]) ++ List.map Row.adId (emitList env b term ts (seen ++ [ad.id]) rest).1 by
        simp]
      refine ⟨H.1, H.2.1, ?_⟩
      intro x hx
      exact H.2.2 x (List.mem_append_left _ hx)

/-- Refinement of the record loop without a signal: the rows it appends to the
aggregate sink plus the rows left in its buffer are exactly the reference
loop's emitted rows; the seen-id set evolves exactly as in the reference
loop; `processed_terms` is untouched; and no fetch event is added. -/
theorem recordLoop_spec (env : Env) (b : Bool) (term ts : String) :
    ∀ (ads : List Ad) (s : LoopSt),
      mergedOf (recordLoop env none b term ts ads s).evs
          ++ (recordLoop env none b term ts ads s).rows
        = mergedOf s.evs ++ s.rows
          ++ (emitList env b term ts s.st.processedAdIds ads).1
      ∧ (recordLoop env none b term ts ads s).st.processedAdIds
          = (emitList env b term ts s.st.processedAdIds ads).2
      ∧ (recordLoop env none b term ts ads s).st.processedTerms = s.st.processedTerms
      ∧ fetchedTerms (recordLoop env none b term ts ads s).evs = fetchedTerms s.evs := by
  intro ads
  induction ads with
  | nil =>
    intro s
    simp [recordLoop, emitList]
  | cons ad rest ih =>
    intro s
    simp only [recordLoop, isShut, Bool.false_eq_true, if_false]
    cases hemit : emitOne env b term ts s.st.processedAdIds ad with
    | none =>
      simp only [hemit, emitList]
      exact ih ⟨s.rows, s.st, s.t + 1, s.evs⟩
    | some row =>
      simp only [hemit, emitList]
      by_cases hb : env.batchN ≤ (s.rows ++ [row]).length
      · rw [if_pos hb]
        have H := ih ⟨[], ⟨s.st.processedTerms, s.st.processedAdIds ++ [ad.id]⟩, s.t + 1,
          s.evs ++ [.append (.term ts) (s.rows ++ [row]),
                    .append .aggregate (s.rows ++ [row]),
                    .save ⟨s.st.processedTerms, s.st.processedAdIds ++ [ad.id]⟩]⟩
        obtain ⟨H1, H2, H3, H4⟩ := H
        refine ⟨?_, H2, H3, ?_⟩
        · rw [H1]
          simp [mergedOf_append, mergedOf, mergedDelta, List.append_assoc]
        · rw [H4]
          simp [fetchedTerms_append, fetchedTerms]
      · rw [if_neg hb]
        have H := ih ⟨s.rows ++ [row], ⟨s.st.processedTerms, s.st.processedAdIds ++ [ad.id]⟩,
          s.t + 1, s.evs⟩
        obtain ⟨H1, H2, H3, H4⟩ := H
        refine ⟨?_, H2, H3, H4⟩
        rw [H1]
        simp [List.append_assoc]

/-- With a signal first observed at poll `k`, the record loop behaves — up to
the poll counter — exactly like the signal-free loop on the records whose
poll happens before `k`. -/
theorem recordLoop_sig (env : Env) (b : Bool) (term ts : String) :
    ∀ (k : Nat) (ads : List Ad) (s : LoopSt),
      outOf (recordLoop env (some k) b term ts ads s)
        = outOf (recordLoop env none b term ts (ads.take (k - s.t)) s) := by
  intro k ads
  induction ads with
  | nil => intro s; simp [recordLoop, List.take_nil]
  | cons ad rest ih =>
    intro s
    by_cases hk : k ≤ s.t
    · have h0 : k - s.t = 0 := Nat.sub_eq_zero_of_le hk
      rw [h0, List.take_zero]
      simp only [recordLoop, isShut, outOf, decide_eq_true_eq]
      rw [if_pos hk]
    · have h1 : k - s.t = (k - (s.t + 1)) + 1 := by omega
      rw [h1, List.take_succ_cons]
      simp only [recordLoop, isShut, Bool.false_eq_true, if_false, decide_eq_true_eq]
      rw [if_neg hk]
      cases hemit : emitOne env b term ts s.st.processedAdIds ad with
      | none => exact ih ⟨s.rows, s.st, s.t + 1, s.evs⟩
      | some row =>
        dsimp only
        by_cases hb : env.batchN ≤ (s.rows ++ [row]).length
        · rw [if_pos hb, if_pos hb]
          exact ih _
        · rw [if_neg hb, if_neg hb]
          exact ih _

/-- `process_single_term` in terms of the reference loop: the rows it appends
to the aggregate sink are exactly the reference loop's output on the records
processed before the signal; its final state appends the term to
`processed_terms` (unconditionally) and carries the reference loop's final
seen-id list; its buffer is fully flushed; and its only source query is the
term itself. -/
theorem processSingleTerm_spec (env : Env) (sigAt : Option Nat) (b : Bool) (term : String)
    (st : CrawlState) (t : Nat) :
    mergedOf (processSingleTerm env sigAt b term st t).evs
      = (emitList env b term (termSafe term) st.processedAdIds
          (sigTake sigAt t (fetchAdsForTerm env term 5))).1
    ∧ (processSingleTerm env sigAt b term st t).st
        = ⟨st.processedTerms ++ [term],
           (emitList env b term (termSafe term) st.processedAdIds
             (sigTake sigAt t (fetchAdsForTerm env term 5))).2⟩
    ∧ (processSingleTerm env sigAt b term st t).rows = []
    ∧ fetchedTerms (processSingleTerm env sigAt b term st t).evs = [term] := by
  by_cases hads : fetchAdsForTerm env term 5 = []
  · have hsig : sigTake sigAt t (fetchAdsForTerm env term 5) = [] := by
      rw [hads]; cases sigAt <;> simp [sigTake]
    unfold processSingleTerm
    dsimp only
    rw [if_pos hads, hsig]
    simp [mergedOf, mergedDelta, fetchedTerms, emitList]
  · unfold processSingleTerm
    dsimp only
    rw [if_neg hads]
    have hout : outOf (recordLoop env sigAt b term (termSafe term)
          (fetchAdsForTerm env term 5) ⟨[], st, t, [.fetch term]⟩)
        = outOf (recordLoop env none b term (termSafe term)
            (sigTake sigAt t (fetchAdsForTerm env term 5)) ⟨[], st, t, [.fetch term]⟩) := by
      cases sigAt with
      | none => rfl
      | some k => exact recordLoop_sig env b term (termSafe term) k _ _
    have hrows : (recordLoop env sigAt b term (termSafe term)
          (fetchAdsForTerm env term 5) ⟨[], st, t, [.fetch term]⟩).rows
        = (recordLoop env none b term (termSafe term)
            (sigTake sigAt t (fetchAdsForTerm env term 5)) ⟨[], st, t, [.fetch term]⟩).rows :=
      congrArg Prod.fst hout
    have hst : (recordLoop env sigAt b term (termSafe term)
          (fetchAdsForTerm env term 5) ⟨[], st, t, [.fetch term]⟩).st
        = (recordLoop env none b term (termSafe term)
            (sigTake sigAt t (fetchAdsForTerm env term 5)) ⟨[], st, t, [.fetch term]⟩).st :=
      congrArg (fun p => p.2.1) hout
    have hevs : (recordLoop env sigAt b term (termSafe term)
          (fetchAdsForTerm env term 5) ⟨[], st, t, [.fetch term]⟩).evs
        = (recordLoop env none b term (termSafe term)
            (sigTake sigAt t (fetchAdsForTerm env term 5)) ⟨[], st, t, [.fetch term]⟩).evs :=
      congrArg (fun p => p.2.2) hout
    obtain ⟨H1, H2, H3, H4⟩ := recordLoop_spec env b term (termSafe term)
      (sigTake sigAt t (fetchAdsForTerm env term 5)) ⟨[], st, t, [.fetch term]⟩
    refine ⟨?_, ?_, rfl, ?_⟩
    · rw [mergedOf_append]
      by_cases hr : (recordLoop env sigAt b term (termSafe term)
          (fetchAdsForTerm env term 5) ⟨[], st, t, [.fetch term]⟩).rows = []
      · rw [if_pos hr, hevs]
        have hr' := hr
        rw [hrows] at hr'
        rw [hr'] at H1
        simpa [mergedOf, mergedDelta] using H1
      · rw [if_neg hr, mergedOf_append, hevs, hrows]
        rw [hrows] at hr
        have := H1
        simp only [mergedOf, mergedDelta, List.append_nil, List.nil_append] at this ⊢
        rw [← this]
    · dsimp only
      rw [hst, H2, H3]
    · rw [fetchedTerms_append]
      have hfe : fetchedTerms (recordLoop env sigAt b term (termSafe term)
          (fetchAdsForTerm env term 5) ⟨[], st, t, [.fetch term]⟩).evs = [term] := by
        rw [hevs, H4]; rfl
      by_cases hr : (recordLoop env sigAt b term (termSafe term)
          (fetchAdsForTerm env term 5) ⟨[], st, t, [.fetch term]⟩).rows = []
      · rw [if_pos hr, hfe]; rfl
      · rw [if_neg hr, fetchedTerms_append, hfe]; rfl

/-! ## C2 (amended theorem) — the completed mark is unconditional -/

/-- C2 (amended).  A work item is appended to `processed_terms` whenever
`process_single_term` runs to the end of its body: after an empty fetch,
after all records are handled, and equally after the record loop is
interrupted by the shutdown flag — interruption never prevents the completed
mark. -/
theorem term_always_marked_processed :
    ∀ (env : Env) (sigAt : Option Nat) (b : Bool) (term : String) (st : CrawlState) (t : Nat),
      (processSingleTerm env sigAt b term st t).st.processedTerms
        = st.processedTerms ++ [term] := by
  intro env sigAt b term st t
  rw [(processSingleTerm_spec env sigAt b term st t).2.1]

/-! ## C1 (amended theorem) — dedup across graceful runs -/

/-- The term loop preserves output dedup: if the base id list `B` (the ids
already durable in `merged.csv`) is duplicate-free and covered by the
in-memory seen set, then after any run of the loop the ids appended to the
aggregate sink extend `B` without duplicates and are all contained in the
final in-memory seen set. -/
theorem mainLoop_nodup (env : Env) (sigAt : Option Nat) :
    ∀ (terms : List String) (st : CrawlState) (t : Nat) (B : List String),
      B.Nodup → (∀ x ∈ B, x ∈ st.processedAdIds) →
      (B ++ rowIds (mergedOf (mainLoop env sigAt terms st t).1)).Nodup
      ∧ ∀ x ∈ B ++ rowIds (mergedOf (mainLoop env sigAt terms st t).1),
          x ∈ (mainLoop env sigAt terms st t).2.1.processedAdIds := by
  intro terms
  induction terms with
  | nil =>
    intro st t B hB hBs
    simp only [mainLoop, mergedOf, rowIds, List.map_nil, List.append_nil]
    exact ⟨hB, hBs⟩
  | cons term rest ih =>
    intro st t B hB hBs
    simp only [mainLoop]
    cases hsh : isShut sigAt t with
    | true =>
      simp only [hsh, if_true]
      simp only [mergedOf, rowIds, List.map_nil, List.append_nil]
      exact ⟨hB, hBs⟩
    | false =>
      simp only [hsh, Bool.false_eq_true, if_false]
      by_cases hmem : term ∈ st.processedTerms
      · rw [if_pos hmem]
        exact ih st (t + 1) B hB hBs
      · rw [if_neg hmem]
        cases hrt : env.runtimeExceeded (t + 1) with
        | true =>
          simp only [hrt, if_true]
          simp only [mergedOf, rowIds, List.map_nil, List.append_nil]
          exact ⟨hB, hBs⟩
        | false =>
          simp only [hrt, Bool.false_eq_true, if_false]
          obtain ⟨P1, P2, P3, P4⟩ := processSingleTerm_spec env sigAt true term st (t + 1)
          obtain ⟨E1, E2, E3⟩ := emitList_nodup env true term (termSafe term)
            (sigTake sigAt (t + 1) (fetchAdsForTerm env term 5)) st.processedAdIds B hB hBs
          have hids : (processSingleTerm env sigAt true term st (t + 1)).st.processedAdIds
              = (emitList env true term (termSafe term) st.processedAdIds
                  (sigTake sigAt (t + 1) (fetchAdsForTerm env term 5))).2 := by
            rw [P2]
          obtain ⟨I1, I2⟩ := ih (processSingleTerm env sigAt true term st (t + 1)).st
            (processSingleTerm env sigAt true term st (t + 1)).t
            (B ++ rowIds (emitList env true term (termSafe term) st.processedAdIds
              (sigTake sigAt (t + 1) (fetchAdsForTerm env term 5))).1)
            E1 (by rw [hids]; exact E2)
          rw [mergedOf_append, P1]
          constructor
          · rw [show rowIds ((emitList env true term (termSafe term) st.processedAdIds
                  (sigTake sigAt (t + 1) (fetchAdsForTerm env term 5))).1
                ++ mergedOf (mainLoop env sigAt rest
                    (processSingleTerm env sigAt true term st (t + 1)).st
                    (processSingleTerm env sigAt true term st (t + 1)).t).1)
              = rowIds (emitList env true term (termSafe term) st.processedAdIds
                  (sigTake sigAt (t + 1) (fetchAdsForTerm env term 5))).1
                ++ rowIds (mergedOf (mainLoop env sigAt rest
                    (processSingleTerm env sigAt true term st (t + 1)).st
                    (processSingleTerm env sigAt true term st (t + 1)).t).1) from
              List.map_append _ _ _]
            rw [← List.append_assoc]
            exact I1
          · intro x hx
            apply I2
            rw [show rowIds ((emitList env true term (termSafe term) st.processedAdIds
                  (sigTake sigAt (t + 1) (fetchAdsForTerm env term 5))).1
                ++ mergedOf (mainLoop env sigAt rest
                    (processSingleTerm env sigAt true term st (t + 1)).st
                    (processSingleTerm env sigAt true term st (t + 1)).t).1)
              = rowIds (emitList env true term (termSafe term) st.processedAdIds
                  (sigTake sigAt (t + 1) (fetchAdsForTerm env term 5))).1
                ++ rowIds (mergedOf (mainLoop env sigAt rest
                    (processSingleTerm env sigAt true term st (t + 1)).st
                    (processSingleTerm env sigAt true term st (t + 1)).t).1) from
              List.map_append _ _ _] at hx
            rw [← List.append_assoc] at hx
            exact hx

/-! ## C1 — at-most-once output per record id across runs -/

/-- C1 (counterexample).  The claim asserts that no record id is ever emitted
twice across runs, including a crash followed by a resume.  But
`process_single_term` appends a flushed batch to the CSVs *before*
`save_state` persists the ids it contains: a run crashing after the two
appends of the first batch but before the following save (event prefix of
length 3: fetch, per-term append, aggregate append) leaves `"a1"` in
`merged.csv` while the checkpoint file still does not exist, and the resumed
run emits `"a1"` again — its id then occurs twice in the aggregate output. -/
theorem crash_between_append_and_save_duplicates_id :
    rowIds (crashRun envOne none ["promo"] fsEmpty 3).merged = ["a1"]
    ∧ (crashRun envOne none ["promo"] fsEmpty 3).stateFile = none
    ∧ (rowIds (mainRun envOne none ["promo"]
        (crashRun envOne none ["promo"] fsEmpty 3)).1.merged).count "a1" = 2 := by
  decide

/-- C1 (amended).  Provided every run terminates gracefully — runs to
completion or exits through the cooperative shutdown flag, so that its full
event list is applied — the at-most-once guarantee holds across any sequence
of runs: starting from a consistent durable state (no duplicate id in the
aggregate output, every output id recorded in the checkpoint), the state
after a run is again consistent; in particular no record id ever appears
twice in `merged.csv`.  (The crash counterexample above shows the guarantee
is lost exactly when a run stops between a batch append and the following
save.) -/
theorem graceful_runs_preserve_output_dedup :
    ∀ (env : Env) (sigAt : Option Nat) (terms : List String) (fs : FileSys),
      Consistent fs → Consistent (mainRun env sigAt terms fs).1 := by
  intro env sigAt terms fs hC
  obtain ⟨h1, h2⟩ := hC
  have hm : (mainRun env sigAt terms fs).1.merged
      = fs.merged ++ mergedOf (mainLoop env sigAt terms (loadState fs) 0).1 := by
    unfold mainRun
    dsimp only
    rw [merged_applyEvs, mergedOf_append]
    simp [mergedOf, mergedDelta]
  have hl : loadState (mainRun env sigAt terms fs).1
      = (mainLoop env sigAt terms (loadState fs) 0).2.1 := by
    unfold mainRun
    dsimp only
    exact loadState_after_save fs _ _
  obtain ⟨M1, M2⟩ := mainLoop_nodup env sigAt terms (loadState fs) 0 (rowIds fs.merged) h1 h2
  constructor
  · rw [hm, show rowIds (fs.merged ++ mergedOf (mainLoop env sigAt terms (loadState fs) 0).1)
        = rowIds fs.merged
          ++ rowIds (mergedOf (mainLoop env sigAt terms (loadState fs) 0).1) from
      List.map_append _ _ _]
    exact M1
  · intro x hx
    rw [hm, show rowIds (fs.merged ++ mergedOf (mainLoop env sigAt terms (loadState fs) 0).1)
        = rowIds fs.merged
          ++ rowIds (mergedOf (mainLoop env sigAt terms (loadState fs) 0).1) from
      List.map_append _ _ _] at hx
    rw [hl]
    exact M2 x hx

/-- C1 (witness): the empty durable state is consistent and remains so after
a complete run. -/
theorem graceful_runs_preserve_output_dedup_witness :
    Consistent fsEmpty ∧ Consistent (mainRun envOne none ["promo"] fsEmpty).1 :=
  ⟨by constructor <;> simp [fsEmpty, rowIds],
   graceful_runs_preserve_output_dedup envOne none ["promo"] fsEmpty
     (by constructor <;> simp [fsEmpty, rowIds])⟩

/-! ## C7 — completed work items are never re-queried -/

/-- Once a term is in `processed_terms`, no run of the term loop ever queries
the source for it (the membership check precedes the fetch, and
`processed_terms` only grows). -/
theorem mainLoop_no_refetch (env : Env) (sigAt : Option Nat) :
    ∀ (terms : List String) (st : CrawlState) (t : Nat) (w : String),
      w ∈ st.processedTerms → w ∉ fetchedTerms (mainLoop env sigAt terms st t).1 := by
  intro terms
  induction terms with
  | nil =>
    intro st t w hw
    simp [mainLoop, fetchedTerms]
  | cons term rest ih =>
    intro st t w hw
    simp only [mainLoop]
    cases hsh : isShut sigAt t with
    | true => simp [hsh, fetchedTerms]
    | false =>
      simp only [hsh, Bool.false_eq_true, if_false]
      by_cases hmem : term ∈ st.processedTerms
      · rw [if_pos hmem]
        exact ih st (t + 1) w hw
      · rw [if_neg hmem]
        cases hrt : env.runtimeExceeded (t + 1) with
        | true => simp [hrt, fetchedTerms]
        | false =>
          simp only [hrt, Bool.false_eq_true, if_false]
          obtain ⟨P1, P2, P3, P4⟩ := processSingleTerm_spec env sigAt true term st (t + 1)
          rw [fetchedTerms_append, P4]
          intro hmem2
          rcases List.mem_append.mp hmem2 with h | h
          · rw [List.mem_singleton] at h
            subst h
            exact hmem hw
          · have hw' : w ∈ (processSingleTerm env sigAt true term st (t + 1)).st.processedTerms := by
              rw [P2]
              exact List.mem_append_left _ hw
            exact ih _ _ w hw' h

/-- C7.  For every work item `w` recorded as completed in the loaded
checkpoint, a resumed run performs no source query for `w`: the skip check on
`processed_terms` precedes the fetch call for every item, so `w` is absent
from the run's fetched-term trace. -/
theorem completed_term_never_refetched :
    ∀ (env : Env) (sigAt : Option Nat) (terms : List String) (fs : FileSys) (w : String),
      w ∈ (loadState fs).processedTerms →
      w ∉ fetchedTerms (mainEvents env sigAt terms (loadState fs)) := by
  intro env sigAt terms fs w hw
  unfold mainEvents
  dsimp only
  rw [fetchedTerms_append]
  intro hmem
  rcases List.mem_append.mp hmem with h | h
  · exact mainLoop_no_refetch env sigAt terms (loadState fs) 0 w hw h
  · simp [fetchedTerms] at h

/-- C7 (witness): a checkpoint marking `"done"` completed; the resumed run
over `["done", "promo"]` never fetches `"done"`. -/
theorem completed_term_never_refetched_witness :
    "done" ∈ (loadState fsDone).processedTerms
    ∧ "done" ∉ fetchedTerms (mainEvents envOne none ["done", "promo"] (loadState fsDone)) :=
  ⟨by decide,
   completed_term_never_refetched envOne none ["done", "promo"] fsDone "done" (by decide)⟩

/-! ## C8 — shutdown mid-item: flush everything before, emit nothing after -/

/-- C8.  With a shutdown signal first observed at the `k`-th record poll of a
work item, the rows appended to the aggregate output are exactly the
reference-loop output on the first `k` fetched records — everything processed
before the signal is flushed (the in-memory buffer ends empty), and no record
at or after the signal point produces a row; moreover the flag is also polled
at the work-item boundary: a loop started with the flag already set performs
no event at all. -/
theorem shutdown_flushes_rows_and_stops_at_boundary :
    ∀ (env : Env) (term : String) (st : CrawlState) (k : Nat) (terms : List String),
      mergedOf (processSingleTerm env (some k) true term st 0).evs
        = (emitList env true term (termSafe term) st.processedAdIds
            ((fetchAdsForTerm env term 5).take k)).1
      ∧ (processSingleTerm env (some k) true term st 0).rows = []
      ∧ (mainLoop env (some 0) terms st 0).1 = [] := by
  intro env term st k terms
  obtain ⟨P1, P2, P3, P4⟩ := processSingleTerm_spec env (some k) true term st 0
  refine ⟨?_, P3, ?_⟩
  · rw [P1]
    simp [sigTake]
  · cases terms with
    | nil => rfl
    | cons a r => simp [mainLoop, isShut]

/-! ## C3 (amended theorem) — retry policy and loop resilience -/

/-- C3 (amended).  The session adapter retries only the transient statuses in
`status_forcelist`: a first response with any other status — for instance a
401 — is returned after that single attempt, with no retry (and then raises
through `raise_for_status`).  And no fetch outcome ever halts the work-item
loop: whatever the source answers, the loop (absent a runtime cutoff and a
shutdown signal) fetches exactly the scheduled terms, term by term. -/
theorem non_transient_single_attempt_and_loop_never_halts :
    (∀ att : Nat → HttpResp, (att 0).status ∉ statusForcelist →
      sessionGet att = some (att 0))
    ∧ ∀ (env : Env) (terms : List String) (st : CrawlState) (t : Nat),
        (∀ u, env.runtimeExceeded u = false) →
        fetchedTerms (mainLoop env none terms st t).1
          = termsPlan st.processedTerms terms := by
  constructor
  · intro att h
    simp [sessionGet, retryGet, h]
  · intro env terms
    induction terms with
    | nil =>
      intro st t hrt
      simp [mainLoop, fetchedTerms, termsPlan]
    | cons term rest ih =>
      intro st t hrt
      simp only [mainLoop, isShut, Bool.false_eq_true, if_false]
      by_cases hmem : term ∈ st.processedTerms
      · rw [if_pos hmem]
        simp only [termsPlan, if_pos hmem]
        exact ih st (t + 1) hrt
      · rw [if_neg hmem, hrt (t + 1)]
        simp only [Bool.false_eq_true, if_false]
        obtain ⟨P1, P2, P3, P4⟩ := processSingleTerm_spec env none true term st (t + 1)
        rw [fetchedTerms_append, P4]
        simp only [termsPlan, if_neg hmem, List.singleton_append]
        rw [ih _ _ hrt, P2]

/-- C3 (amended, witness): a constant-401 attempt sequence is answered after
one attempt, and the loop over `["A", "B"]` against the 401-answering source
still fetches both terms. -/
theorem non_transient_single_attempt_and_loop_never_halts_witness :
    ((attOne 0).status ∉ statusForcelist ∧ sessionGet attOne = some (attOne 0))
    ∧ fetchedTerms (mainLoop envAuth none ["A", "B"] ⟨[], []⟩ 0).1
        = termsPlan [] ["A", "B"] :=
  ⟨⟨by decide, non_transient_single_attempt_and_loop_never_halts.1 attOne (by decide)⟩,
   non_transient_single_attempt_and_loop_never_halts.2 envAuth ["A", "B"] ⟨[], []⟩ 0
     (fun _ => rfl)⟩

/-! ## C5 (amended theorem) — exit code and the missing-token path -/

/-- C5 (amended).  Every modelled (exception-free) execution of `toolv3.py`
exits with status 0, including the missing- or empty-credential case; in that
case `main` returns before initializing the driver and performs no fetch,
append or save — the durable state is untouched — although `load_state` and
the retention sweep have already run before the check. -/
theorem exit_code_zero_and_no_work_without_token :
    ∀ (tok : Option String) (env : Env) (sigAt : Option Nat) (terms : List String)
      (fs : FileSys),
      (mainFull tok env sigAt terms fs).1.exitCode = 0
      ∧ (tokenPresent tok = false →
          (mainFull tok env sigAt terms fs).1.evs = []
          ∧ (mainFull tok env sigAt terms fs).2 = fs
          ∧ (mainFull tok env sigAt terms fs).1.driverInited = false
          ∧ (mainFull tok env sigAt terms fs).1.cleanupRan = true) := by
  intro tok env sigAt terms fs
  by_cases h : tokenPresent tok = false
  · unfold mainFull
    rw [if_pos h]
    exact ⟨rfl, fun _ => ⟨rfl, rfl, rfl, rfl⟩⟩
  · unfold mainFull
    rw [if_neg h]
    exact ⟨rfl, fun hh => absurd hh h⟩

/-- C5 (amended, witness): with no token the process exits 0 having performed
no event. -/
theorem exit_code_zero_and_no_work_without_token_witness :
    (mainFull none envOne none ["promo"] fsEmpty).1.exitCode = 0
    ∧ (mainFull none envOne none ["promo"] fsEmpty).1.evs = [] :=
  ⟨(exit_code_zero_and_no_work_without_token none envOne none ["promo"] fsEmpty).1,
   ((exit_code_zero_and_no_work_without_token none envOne none ["promo"] fsEmpty).2 rfl).1⟩

/-! ## C4 — checkpoint save: logged failures, but no atomic overwrite -/

/-- C4 (counterexample).  The claim asserts the save is an atomic overwrite
whose failure leaves the previous checkpoint intact and readable.  But
`save_state` is a plain `write_text`, which truncates before writing: a save
of the next state that fails mid-write destroys the previously persisted
checkpoint, and the next `load_state` falls back to the empty state instead
of reading it. -/
theorem partial_save_corrupts_checkpoint :
    saveStateFile (.valid ⟨["t"], ["a"]⟩) ⟨["t", "u"], ["a", "b"]⟩ .writePartial
        ≠ .valid ⟨["t"], ["a"]⟩
    ∧ loadStateFile (saveStateFile (.valid ⟨["t"], ["a"]⟩) ⟨["t", "u"], ["a", "b"]⟩
        .writePartial) ≠ (⟨["t"], ["a"]⟩ : CrawlState) := by
  decide

/-- C4 (amended).  Save failures are caught and logged, never raised
(`saveStateFile` is a total function); a failure before the file is opened
leaves the previous checkpoint intact; a successful save persists exactly the
new state; but the overwrite is not atomic — a failure partway through the
write corrupts the file and the next load falls back to the empty state
rather than to the previous checkpoint. -/
theorem save_failure_logged_but_overwrite_not_atomic :
    ∀ (old : StateFileV) (st : CrawlState),
      saveStateFile old st .ok = .valid st
      ∧ saveStateFile old st .openFail = old
      ∧ loadStateFile (saveStateFile old st .writePartial) = (⟨[], []⟩ : CrawlState) := by
  intro old st
  exact ⟨rfl, rfl, rfl⟩

/-! ## C9 — rejected captures perform no filesystem effect -/

/-- C9.  `capture_ad_snapshot` returns `none` before `dest_folder.mkdir` and
before any download or screenshot when the resource URL is absent or
`has_enough_disk` reports insufficient capacity: the result is `none` and the
effect trace is empty, so a rejected capture leaves the filesystem
unchanged. -/
theorem rejected_capture_leaves_fs_unchanged :
    ∀ (env : CapEnv) (url? : Option String) (d a : String),
      url? = none ∨ env.hasDisk = false →
      captureAdSnapshot env url? d a = (none, []) := by
  intro env url? d a h
  rcases h with h | h
  · subst h; rfl
  · cases url? with
    | none => rfl
    | some u => simp [captureAdSnapshot, h]

/-- C9 (witness): a present URL with the disk check failing. -/
theorem rejected_capture_leaves_fs_unchanged_witness :
    ((some "http://x" : Option String) = none ∨ capNoDisk.hasDisk = false)
    ∧ captureAdSnapshot capNoDisk (some "http://x") "d" "a" = (none, []) :=
  ⟨Or.inr rfl,
   rejected_capture_leaves_fs_unchanged capNoDisk (some "http://x") "d" "a" (Or.inr rfl)⟩

/-! ## C6 — capture falls through on a non-image direct download -/

/-- C6.  When the URL path carries an image extension but the direct download
answers a `Content-Type` that is not an image type, `capture_ad_snapshot` does
not return `none` there: it falls through to the HEAD probe — whose triggered
download, using the same GET, necessarily fails as well — and then to the
rendered-page capture, returning `none` exactly when that final step also
fails, and the screenshot path when it succeeds. -/
theorem capture_falls_through_on_non_image_content :
    ∀ (env : CapEnv) (u d a ct : String),
      env.hasDisk = true →
      imageExts.any (fun e => strEndsWith (strLower (urlPath u)) e) = true →
      env.getCt u = some ct →
      containsSub ct "image" = false →
      (captureAdSnapshot env (some u) d a).1
        = (if env.ssOk u then some (withSuffix (d ++ "/" ++ a) ".png") else none) := by
  intro env u d a ct hd hext hget hctImg
  cases hh : env.headRes u with
  | exn =>
    simp only [captureAdSnapshot, hd, hext, downloadImage, hget, hctImg, hh,
      Bool.false_eq_true, if_false, if_true]
    by_cases hs : env.ssOk u = true <;> simp [hs]
  | ok ct2 =>
    by_cases h2 : containsSub ct2 "image"
    · simp only [captureAdSnapshot, hd, hext, downloadImage, hget, hctImg, hh, h2,
        Bool.false_eq_true, if_false, if_true]
      by_cases hs : env.ssOk u = true <;> simp [hs]
    · simp only [captureAdSnapshot, hd, hext, downloadImage, hget, hctImg, hh,
        h2, Bool.false_eq_true, if_false, if_true]
      by_cases hs : env.ssOk u = true <;> simp [hs]

/-- C6 (witness): a `.png` URL whose GET and HEAD both answer `text/html` and
whose rendered capture succeeds. -/
theorem capture_falls_through_on_non_image_content_witness :
    capProbe.hasDisk = true
    ∧ imageExts.any (fun e => strEndsWith (strLower (urlPath "http://h/p.png")) e) = true
    ∧ capProbe.getCt "http://h/p.png" = some "text/html"
    ∧ containsSub "text/html" "image" = false
    ∧ (captureAdSnapshot capProbe (some "http://h/p.png") "d" "a").1
        = (if capProbe.ssOk "http://h/p.png" then
            some (withSuffix ("d" ++ "/" ++ "a") ".png") else none) :=
  ⟨rfl, by decide, rfl, by decide,
   capture_falls_through_on_non_image_content capProbe "http://h/p.png" "d" "a"
     "text/html" rfl (by decide) rfl (by decide)⟩

/-! ## C2 — when a work item is marked completed -/

/-- C2 (counterexample).  The claim asserts a work item interrupted
mid-record-loop by a shutdown signal is not marked completed.  But
`process_single_term` appends the term to `processed_terms` unconditionally
after the loop: with two fetched records and the shutdown flag observed at
the very first record poll — so that no record at all is processed and no
row is emitted — the term is nonetheless recorded as processed. -/
theorem interrupted_term_still_marked_processed :
    (fetchAdsForTerm envTwo "promo" 5).length = 2
    ∧ (processSingleTerm envTwo (some 0) true "promo" ⟨[], []⟩ 0).st.processedTerms
        = ["promo"]
    ∧ mergedOf (processSingleTerm envTwo (some 0) true "promo" ⟨[], []⟩ 0).evs = [] := by
  decide

/-! ## C3 — error propagation out of the fetch client -/

/-- C3 (counterexample).  The claim asserts an authorization failure
propagates as a fatal `SourceAuthError` that is surfaced to the top level and
halts the entire work-item loop.  In the source no such exception type
exists: a 401 is indeed not retried (it is outside the adapter's
`status_forcelist`), but `raise_for_status`'s exception is caught inside
`fetch_ads_for_term`'s page loop, which logs it and returns the records
accumulated so far — here the empty list — and the work-item loop simply
continues: the next term is still fetched and both terms end up marked
processed. -/
theorem auth_error_swallowed_and_loop_continues :
    401 ∉ statusForcelist
    ∧ fetchAdsForTerm envAuth "A" 5 = []
    ∧ Ev.fetch "B" ∈ mainEvents envAuth none ["A", "B"] ⟨[], []⟩
    ∧ (mainLoop envAuth none ["A", "B"] ⟨[], []⟩ 0).2.1.processedTerms = ["A", "B"] := by
  decide

/-! ## C5 — exit code on missing configuration -/

/-- C5 (counterexample).  The claim asserts a non-zero exit code when the
access credential is missing at start.  But `main` merely logs and returns,
and the `if __name__ == "__main__": main()` entry point never calls
`sys.exit`: the process exits 0 with a missing (or empty) token exactly as it
does on graceful completion. -/
theorem missing_token_exit_code_zero :
    (mainFull none envOne none ["promo"] fsEmpty).1.exitCode = 0
    ∧ (mainFull (some "") envOne none ["promo"] fsEmpty).1.exitCode = 0 := by
  decide

end Toolv3

namespace MergeCsv

/-- `find?` by name misses every entry whose name differs. -/
theorem find?_name_none {α : Type} (n : String) :
    ∀ d : List (String × α), n ∉ d.map Prod.fst →
      d.find? (fun f => f.1 = n) = none := by
  intro d
  induction d with
  | nil => intro _; rfl
  | cons x xs ih =>
    intro h
    simp only [List.map_cons, List.mem_cons, not_or] at h
    obtain ⟨h1, h2⟩ := h
    have h1' : ¬x.1 = n := fun e => h1 e.symm
    simp [List.find?, h1', ih h2]

/-- `any` by name is false when no entry carries the name. -/
theorem any_name_false {α : Type} (n : String) :
    ∀ d : List (String × α), n ∉ d.map Prod.fst →
      d.any (fun f => f.1 = n) = false := by
  intro d
  induction d with
  | nil => intro _; rfl
  | cons x xs ih =>
    intro h
    simp only [List.map_cons, List.mem_cons, not_or] at h
    obtain ⟨h1, h2⟩ := h
    have h1' : ¬x.1 = n := fun e => h1 e.symm
    simp [List.any_cons, h1', ih h2]

/-- Replacing the entry named `n` is the identity when no entry carries `n`. -/
theorem map_replace_id {α : Type} (n : String) (rows : α) :
    ∀ d : List (String × α), n ∉ d.map Prod.fst →
      d.map (fun f => if f.1 = n then (n, rows) else f) = d := by
  intro d
  induction d with
  | nil => intro _; rfl
  | cons x xs ih =>
    intro h
    simp only [List.map_cons, List.mem_cons, not_or] at h
    obtain ⟨h1, h2⟩ := h
    have h1' : ¬x.1 = n := fun e => h1 e.symm
    simp [h1', ih h2]

/-- `find?` skips a miss-only left part. -/
theorem find?_append_none {α : Type} (p : α → Bool) :
    ∀ l1 l2 : List α, l1.find? p = none → (l1 ++ l2).find? p = l2.find? p := by
  intro l1
  induction l1 with
  | nil => intro l2 _; rfl
  | cons x xs ih =>
    intro l2 h
    simp only [List.find?] at h ⊢
    cases hx : p x with
    | true => simp [hx] at h
    | false => simp only [hx] at h ⊢; exact ih l2 h

/-! ## C10 — merging twice duplicates every merged row -/

/-- C10.  `merge_csv.py` concatenates every `*.csv` in the working directory
— including a `merged.csv` left by an earlier invocation — into `merged.csv`.
Consequently the merge is not idempotent: starting from a directory with no
`merged.csv`, running it twice leaves a `merged.csv` holding the first
merge's output twice over (the re-read originals followed by the previous
`merged.csv`). -/
theorem merge_twice_duplicates_rows :
    ∀ d d1 d2 : List (String × List String),
      "merged.csv" ∉ d.map Prod.fst →
      mergeCsv d = some d1 →
      mergeCsv d1 = some d2 →
      readRows d2 "merged.csv"
        = readRows d1 "merged.csv" ++ readRows d1 "merged.csv" := by
  intro d d1 d2 hn h1 h2
  have hcsv : Toolv3.strEndsWith "merged.csv" ".csv" = true := by decide
  unfold mergeCsv at h1
  by_cases hg : globCsv d = []
  · rw [if_pos hg] at h1; exact absurd h1 (by simp)
  · rw [if_neg hg] at h1
    have hd1 : d1 = d ++ [("merged.csv", ((globCsv d).map (fun f => f.2)).flatten)] := by
      have := Option.some.inj h1
      rw [← this, writeFile, any_name_false "merged.csv" d hn]
      simp
    set m1 : List String := ((globCsv d).map (fun f => f.2)).flatten with hm1
    have hglob1 : globCsv d1 = globCsv d ++ [("merged.csv", m1)] := by
      rw [hd1, globCsv, List.filter_append]
      simp [globCsv, List.filter, hcsv]
    unfold mergeCsv at h2
    rw [hglob1] at h2
    have hne : globCsv d ++ [("merged.csv", m1)] ≠ [] := by simp
    rw [if_neg hne] at h2
    have hd2 : d2 = d ++ [("merged.csv", m1 ++ m1)] := by
      have h2' := Option.some.inj h2
      rw [← h2', writeFile, hd1]
      have hany : (d ++ [("merged.csv", m1)]).any (fun f => f.1 = "merged.csv") = true := by
        simp [List.any_append]
      rw [if_pos hany]
      rw [List.map_append, map_replace_id "merged.csv" _ d hn]
      simp [hm1]
    have hr1 : readRows d1 "merged.csv" = m1 := by
      rw [hd1, readRows, find?_append_none _ d _ (find?_name_none "merged.csv" d hn)]
      simp [List.find?]
    have hr2 : readRows d2 "merged.csv" = m1 ++ m1 := by
      rw [hd2, readRows, find?_append_none _ d _ (find?_name_none "merged.csv" d hn)]
      simp [List.find?]
    rw [hr1, hr2]

/-- C10 (witness): a directory holding one CSV of two rows; after two merges
`merged.csv` holds those two rows twice. -/
theorem merge_twice_duplicates_rows_witness :
    "merged.csv" ∉ dirC.map Prod.fst
    ∧ readRows dirC2 "merged.csv"
        = readRows dirC1 "merged.csv" ++ readRows dirC1 "merged.csv" :=
  ⟨by decide,
   merge_twice_duplicates_rows dirC dirC1 dirC2 (by decide) (by decide) (by decide)⟩

end MergeCsv
